import Mathlib

/-!
Verification of the incremental chat-response ingestion engine of
`src/pages/AIChat.tsx` (`streamChat` / `sendMessage`).

Text is modelled as `List Char`; the transport delivers chunks of text
(`TextDecoder` with `stream: true` reassembles bytes split inside a
multi-byte character, so chunk splits are modelled at character
granularity).  JSON values are modelled by the inductive `Json`;
`jsonParse` is a recursive-descent parser for the JSON grammar accepted
by `JSON.parse` (numbers keep their raw lexeme; `\uXXXX` escapes are
mapped to the scalar value without surrogate pairing — no claim depends
on either).
-/

namespace AIChat

/-- Whitespace stripped by JavaScript `String.prototype.trim`
(ASCII whitespace, NBSP, BOM and the two line separators; rarer
Unicode `Zs` code points are omitted — no claim involves them). -/
def isTrimWs (c : Char) : Bool :=
  c = ' ' || c = '\t' || c = '\n' || c = '\r' || c = '\x0b' || c = '\x0c' ||
  c = '\u00A0' || c = '\uFEFF' || c = '\u2028' || c = '\u2029'

/-- Leading-whitespace strip, first half of `.trim()`. -/
def trimLeft (l : List Char) : List Char := l.dropWhile isTrimWs

/-- Trailing-whitespace strip, second half of `.trim()`. -/
def trimRight (l : List Char) : List Char := (l.reverse.dropWhile isTrimWs).reverse

/-- JavaScript `s.trim()`. -/
def jsTrim (l : List Char) : List Char := trimRight (trimLeft l)

/-- `if (line.endsWith("\r")) line = line.slice(0, -1)` (AIChat.tsx line 70/104). -/
def stripCR (l : List Char) : List Char :=
  if l.getLast? = some '\r' then l.dropLast else l

/-- The six-character data-frame marker `"data: "`. -/
def dataMark : List Char := ['d', 'a', 't', 'a', ':', ' ']

/-- The termination sentinel literal `"[DONE]"`. -/
def doneLit : List Char := ['[', 'D', 'O', 'N', 'E', ']']

/-- JSON values as produced by `JSON.parse`.  Object members keep source
order (duplicate keys are resolved to the last occurrence at lookup).
Numbers carry their raw lexeme. -/
inductive Json where
  | null : Json
  | bool (b : Bool) : Json
  | num (raw : List Char) : Json
  | str (s : List Char) : Json
  | arr (elems : List Json) : Json
  | obj (members : List (List Char × Json)) : Json

/-- JSON structural whitespace (`ws` in the JSON grammar; `JSON.parse`
accepts exactly these four characters between tokens). -/
def isJsonWs (c : Char) : Bool :=
  c = ' ' || c = '\t' || c = '\n' || c = '\r'

/-- Skip JSON structural whitespace. -/
def skipWs (l : List Char) : List Char := l.dropWhile isJsonWs

/-- Hex digit value, for `\uXXXX` string escapes (code points 48–57
are `0`–`9`, 97–102 are `a`–`f`, 65–70 are `A`–`F`). -/
def hexVal (c : Char) : Option Nat :=
  let n := c.toNat
  if 48 ≤ n ∧ n ≤ 57 then some (n - 48)
  else if 97 ≤ n ∧ n ≤ 102 then some (n - 87)
  else if 65 ≤ n ∧ n ≤ 70 then some (n - 55)
  else none

/-- Parse the body of a JSON string literal (after the opening quote),
returning the decoded characters and the input past the closing quote.
Control characters below U+0020 are rejected, as by `JSON.parse`. -/
def parseStrBody (fuel : Nat) (l : List Char) : Option (List Char × List Char) :=
  match fuel with
  | 0 => none
  | fuel + 1 =>
    match l with
    | [] => none
    | '"' :: rest => some ([], rest)
    | '\\' :: e :: rest =>
      match e with
      | '"' => (parseStrBody fuel rest).map (fun r => ('"' :: r.1, r.2))
      | '\\' => (parseStrBody fuel rest).map (fun r => ('\\' :: r.1, r.2))
      | '/' => (parseStrBody fuel rest).map (fun r => ('/' :: r.1, r.2))
      | 'b' => (parseStrBody fuel rest).map (fun r => ('\x08' :: r.1, r.2))
      | 'f' => (parseStrBody fuel rest).map (fun r => ('\x0c' :: r.1, r.2))
      | 'n' => (parseStrBody fuel rest).map (fun r => ('\n' :: r.1, r.2))
      | 'r' => (parseStrBody fuel rest).map (fun r => ('\r' :: r.1, r.2))
      | 't' => (parseStrBody fuel rest).map (fun r => ('\t' :: r.1, r.2))
      | 'u' =>
        match rest with
        | h1 :: h2 :: h3 :: h4 :: rest' =>
          match hexVal h1, hexVal h2, hexVal h3, hexVal h4 with
          | some a, some b, some c, some d =>
            (parseStrBody fuel rest').map
              (fun r => (Char.ofNat (((a * 16 + b) * 16 + c) * 16 + d) :: r.1, r.2))
          | _, _, _, _ => none
        | _ => none
      | _ => none
    | c :: rest =>
      if c.toNat < 0x20 then none
      else (parseStrBody fuel rest).map (fun r => (c :: r.1, r.2))

/-- One or more decimal digits; returns the digits and the remainder. -/
def parseDigits (l : List Char) : Option (List Char × List Char) :=
  let ds := l.takeWhile (fun c => '0' ≤ c ∧ c ≤ '9')
  if ds = [] then none else some (ds, l.drop ds.length)

/-- The integer part of a JSON number: `0` or a nonzero digit followed
by digits (leading zeros are rejected, as by `JSON.parse`). -/
def parseIntPart (l : List Char) : Option (List Char × List Char) :=
  match l with
  | '0' :: rest => some (['0'], rest)
  | c :: _ =>
    if '1' ≤ c ∧ c ≤ '9' then parseDigits l else none
  | [] => none

/-- Optional fraction part `.digits`. -/
def parseFrac (l : List Char) : Option (List Char × List Char) :=
  match l with
  | '.' :: rest =>
    match parseDigits rest with
    | some (ds, rest') => some ('.' :: ds, rest')
    | none => none
  | _ => some ([], l)

/-- Optional exponent part `[eE][+-]?digits`. -/
def parseExp (l : List Char) : Option (List Char × List Char) :=
  match l with
  | c :: rest =>
    if c = 'e' ∨ c = 'E' then
      match rest with
      | s :: rest' =>
        if s = '+' ∨ s = '-' then
          match parseDigits rest' with
          | some (ds, rest'') => some (c :: s :: ds, rest'')
          | none => none
        else
          match parseDigits rest with
          | some (ds, rest'') => some (c :: ds, rest'')
          | none => none
      | [] => none
    else some ([], l)
  | [] => some ([], l)

/-- A JSON number starting at `l` (no leading whitespace); returns the
raw lexeme and the remainder. -/
def parseNum (l : List Char) : Option (List Char × List Char) :=
  let (sign, l') := match l with
    | '-' :: rest => (['-'], rest)
    | _ => (([] : List Char), l)
  match parseIntPart l' with
  | none => none
  | some (ip, r1) =>
    match parseFrac r1 with
    | none => none
    | some (fp, r2) =>
      match parseExp r2 with
      | none => none
      | some (ep, r3) => some (sign ++ ip ++ fp ++ ep, r3)

mutual

/-- Recursive-descent parse of one JSON value (leading whitespace
already skipped by the caller). -/
def parseValue (fuel : Nat) (l : List Char) : Option (Json × List Char) :=
  match fuel with
  | 0 => none
  | fuel + 1 =>
    match l with
    | '{' :: rest =>
      let rest' := skipWs rest
      match rest' with
      | '}' :: rest'' => some (Json.obj [], rest'')
      | _ =>
        match parseMembers fuel rest' with
        | some (ms, r) =>
          match skipWs r with
          | '}' :: r' => some (Json.obj ms, r')
          | _ => none
        | none => none
    | '[' :: rest =>
      let rest' := skipWs rest
      match rest' with
      | ']' :: rest'' => some (Json.arr [], rest'')
      | _ =>
        match parseElems fuel rest' with
        | some (es, r) =>
          match skipWs r with
          | ']' :: r' => some (Json.arr es, r')
          | _ => none
        | none => none
    | '"' :: rest =>
      match parseStrBody (rest.length + 1) rest with
      | some (s, r) => some (Json.str s, r)
      | none => none
    | 't' :: 'r' :: 'u' :: 'e' :: rest => some (Json.bool true, rest)
    | 'f' :: 'a' :: 'l' :: 's' :: 'e' :: rest => some (Json.bool false, rest)
    | 'n' :: 'u' :: 'l' :: 'l' :: rest => some (Json.null, rest)
    | _ =>
      match parseNum l with
      | some (raw, r) => some (Json.num raw, r)
      | none => none

/-- Comma-separated object members `"key": value, ...` (at least one). -/
def parseMembers (fuel : Nat) (l : List Char) : Option (List (List Char × Json) × List Char) :=
  match fuel with
  | 0 => none
  | fuel + 1 =>
    match l with
    | '"' :: rest =>
      match parseStrBody (rest.length + 1) rest with
      | some (k, r) =>
        match skipWs r with
        | ':' :: r' =>
          match parseValue fuel (skipWs r') with
          | some (v, r'') =>
            match skipWs r'' with
            | ',' :: r3 =>
              match parseMembers fuel (skipWs r3) with
              | some (ms, r4) => some ((k, v) :: ms, r4)
              | none => none
            | _ => some ([(k, v)], r'')
          | none => none
        | _ => none
      | none => none
    | _ => none

/-- Comma-separated array elements (at least one). -/
def parseElems (fuel : Nat) (l : List Char) : Option (List Json × List Char) :=
  match fuel with
  | 0 => none
  | fuel + 1 =>
    match parseValue fuel l with
    | some (v, r) =>
      match skipWs r with
      | ',' :: r' =>
        match parseElems fuel (skipWs r') with
        | some (es, r'') => some (v :: es, r'')
        | none => none
      | _ => some ([v], r)
    | none => none

end

/-- `JSON.parse(s)`: parse one value with surrounding whitespace and
demand the whole input be consumed; `none` models a thrown
`SyntaxError`. -/
def jsonParse (l : List Char) : Option Json :=
  match parseValue (2 * l.length + 2) (skipWs l) with
  | some (v, rest) => if skipWs rest = [] then some v else none
  | none => none

/-- Property lookup on an object, duplicate keys resolved to the last
occurrence as `JSON.parse` does. -/
def jsLookup (kvs : List (List Char × Json)) (k : List Char) : Option Json :=
  match kvs with
  | [] => none
  | (k', v) :: rest =>
    match jsLookup rest k with
    | some v' => some v'
    | none => if k' = k then some v else none

/-- JavaScript property access `j[k]` on a non-null base: objects yield
the member (or `undefined` = `none`); every other base has no such own
property. -/
def jsField (j : Json) (k : List Char) : Option Json :=
  match j with
  | .obj kvs => jsLookup kvs k
  | _ => none

/-- Optional-chained member access `v?.[k-name]`: short-circuits to
`undefined` on `undefined`/`null`, otherwise plain access. -/
def optMember (v : Option Json) (k : List Char) : Option Json :=
  match v with
  | none => none
  | some .null => none
  | some j => jsField j k

/-- Optional-chained index access `v?.[0]`: arrays yield their head,
objects their `"0"` member, strings their first character (as a
one-character string); other bases yield `undefined`. -/
def optIndex0 (v : Option Json) : Option Json :=
  match v with
  | none => none
  | some .null => none
  | some (.arr xs) => xs.head?
  | some (.obj kvs) => jsLookup kvs ['0']
  | some (.str s) => s.head?.map (fun c => Json.str [c])
  | some _ => none

/-- `parsed.choices?.[0]?.delta?.content` (AIChat.tsx line 79/111).
The first access is not optional-chained, so a `null` base throws a
`TypeError` (modelled as `Except.error`), which the surrounding
`try`/`catch` treats like a parse failure. -/
def contentOf (parsed : Json) : Except Unit (Option Json) :=
  match parsed with
  | .null => .error ()
  | j =>
    .ok (optMember (optIndex0 (jsField j ['c', 'h', 'o', 'i', 'c', 'e', 's']))
          ['d', 'e', 'l', 't', 'a'] |> (optMember · ['c', 'o', 'n', 't', 'e', 'n', 't']))

/-- A JSON number is the value zero iff its mantissa (everything before
any exponent marker) contains no nonzero digit. -/
def numIsZero (raw : List Char) : Bool :=
  (raw.takeWhile (fun c => c ≠ 'e' ∧ c ≠ 'E')).all
    (fun c => ¬ ('1' ≤ c ∧ c ≤ '9'))

/-- JavaScript truthiness of `content` (`if (content)`, line 80/112):
`undefined`, `null`, `false`, numeric zero and the empty string are
falsy; everything else is truthy. -/
def jsTruthy (v : Option Json) : Bool :=
  match v with
  | none => false
  | some .null => false
  | some (.bool b) => b
  | some (.num raw) => ¬ numIsZero raw
  | some (.str s) => s ≠ []
  | some (.arr _) => true
  | some (.obj _) => true

mutual

/-- JavaScript string conversion `String(v)` as applied by
`assistantContent += content`.  Numbers render their raw lexeme (JS
re-canonicalizes number formatting; no claim involves non-string
content, the accepted frames of the protocol carry strings). -/
def jsString : Json → List Char
  | .null => ("null").toList
  | .bool b => if b then ("true").toList else ("false").toList
  | .num raw => raw
  | .str s => s
  | .arr xs => jsStringElems xs
  | .obj _ => ("[object Object]").toList
termination_by structural j => j

/-- `Array.prototype.join(",")`: elements separated by commas, `null`
elements rendered empty. -/
def jsStringElems : List Json → List Char
  | [] => []
  | [Json.null] => []
  | [j] => jsString j
  | Json.null :: rest => ',' :: jsStringElems rest
  | j :: rest => jsString j ++ ',' :: jsStringElems rest
termination_by structural l => l

end

/-- The text appended for an accepted delta (`content` is truthy here;
kept total for definitional convenience). -/
def jsToAppend (v : Option Json) : List Char :=
  match v with
  | some j => jsString j
  | none => []

/-- The action taken for one decoded line: skip it, stop on the
sentinel, append delta text, or hit the `catch` of a payload that
failed to parse (or whose member access threw). -/
inductive LineAct where
  | skip : LineAct
  | sentinel : LineAct
  | emit (t : List Char) : LineAct
  | malformed : LineAct
deriving DecidableEq

/-- The per-line logic shared by the read loop (lines 71–96) and the
final flush (lines 105–124), applied to a line already stripped of its
trailing carriage return.  The loops differ only in what they DO with
`sentinel` (break vs continue) and `malformed` (re-queue vs ignore). -/
def interpretLine (l : List Char) : LineAct :=
  if l.head? = some ':' ∨ jsTrim l = [] then .skip
  else if l.take 6 ≠ dataMark then .skip
  else
    let jsonStr := jsTrim (l.drop 6)
    if jsonStr = doneLit then .sentinel
    else
      match jsonParse jsonStr with
      | none => .malformed
      | some parsed =>
        match contentOf parsed with
        | .error _ => .malformed
        | .ok c => if jsTruthy c then .emit (jsToAppend c) else .skip

/-- The delta text a line contributes under the final-flush treatment
(sentinel and malformed lines contribute nothing). -/
def lineEmit (raw : List Char) : Option (List Char) :=
  match interpretLine (stripCR raw) with
  | .emit t => some t
  | _ => none

/-- JavaScript `s.split("\n")`: the list of newline-free segments,
including a final (possibly empty) unterminated one. -/
def splitNL (l : List Char) : List (List Char) :=
  match l with
  | [] => [[]]
  | c :: cs =>
    if c = '\n' then [] :: splitNL cs
    else
      match splitNL cs with
      | s :: ss => (c :: s) :: ss
      | [] => [[c]]

/-- Reference semantics: the deltas accepted from a complete input when
every line (split at every newline, plus the unterminated tail) is
interpreted once, in order. -/
def specEmits (l : List Char) : List (List Char) :=
  (splitNL l).filterMap lineEmit

/-- The inner `while ((newlineIndex = textBuffer.indexOf("\n")) !== -1)`
loop (lines 66–97): `pending` is the text before the next newline
scanned so far, `rest` the text after it.  Returns the residual
`textBuffer` and the deltas accepted, in order.  On the sentinel the
loop breaks keeping the remainder buffered; on a malformed payload the
stripped line is re-queued in front of the remainder and the loop
breaks to await more data. -/
def scan (pending : List Char) (rest : List Char) : List Char × List (List Char) :=
  match rest with
  | [] => (pending, [])
  | c :: cs =>
    if c = '\n' then
      match interpretLine (stripCR pending) with
      | .skip => scan [] cs
      | .emit t =>
        let r := scan [] cs
        (r.1, t :: r.2)
      | .sentinel => (cs, [])
      | .malformed => (stripCR pending ++ '\n' :: cs, [])
    else scan (pending ++ [c]) cs

/-- The outer `while (true)` read loop (lines 59–98): each chunk is
decoded and appended to the residual buffer, then complete lines are
consumed.  Returns the buffer left at stream end and the accepted
deltas. -/
def runMain (chunks : List (List Char)) (buf : List Char) : List Char × List (List Char) :=
  match chunks with
  | [] => (buf, [])
  | c :: cs =>
    let r := scan [] (buf ++ c)
    let r2 := runMain cs r.1
    (r2.1, r.2 ++ r2.2)

/-- The final flush (lines 100–126): if the residual buffer is not
whitespace-only, split it on newlines and interpret every segment,
ignoring the sentinel and malformed payloads. -/
def flushEmits (buf : List Char) : List (List Char) :=
  if jsTrim buf = [] then [] else (splitNL buf).filterMap lineEmit

/-- All deltas accepted by `streamChat` over a chunk sequence: the main
read loop followed by the final flush of the residual buffer. -/
def runEmits (chunks : List (List Char)) : List (List Char) :=
  let r := runMain chunks []
  r.2 ++ flushEmits r.1

/-- The final value of `assistantContent`: every accepted delta is
appended in order (`assistantContent += content`). -/
def assistantContent (chunks : List (List Char)) : List Char :=
  (runEmits chunks).flatten

/-- Message roles. -/
inductive Role where
  | user : Role
  | assistant : Role
deriving DecidableEq

/-- A chat message. -/
structure Message where
  role : Role
  content : List Char
deriving DecidableEq

/-- `prev[prev.length - 1]?.role === "assistant"` (line 83–84/115–116). -/
def lastIsAssistant (prev : List Message) : Bool :=
  match prev.getLast? with
  | some m => m.role = Role.assistant
  | none => false

/-- The `setMessages` updater (lines 82–90 and 114–122): replace the
trailing assistant message's content with the full accumulated text, or
append a fresh assistant message. -/
def updateMessages (prev : List Message) (c : List Char) : List Message :=
  if lastIsAssistant prev then
    prev.dropLast ++ [⟨Role.assistant, c⟩]
  else
    prev ++ [⟨Role.assistant, c⟩]

/-- The successive conversation values passed to `setMessages` during a
turn, one per accepted delta: `acc` is the `assistantContent`
accumulated so far. -/
def notifAux (msgs : List Message) (acc : List Char) : List (List Char) → List (List Message)
  | [] => []
  | t :: ts =>
    let acc' := acc ++ t
    let msgs' := updateMessages msgs acc'
    msgs' :: notifAux msgs' acc' ts

/-- The successive values of `assistantContent` at each accepted delta. -/
def prefAccs (acc : List Char) : List (List Char) → List (List Char)
  | [] => []
  | t :: ts => (acc ++ t) :: prefAccs (acc ++ t) ts

/-- All conversation-update notifications issued by a completed
(uninterrupted) turn that starts from conversation `m0`. -/
def streamNotifs (m0 : List Message) (chunks : List (List Char)) : List (List Message) :=
  notifAux m0 [] (runEmits chunks)

/-- The conversation visible after the last notification (or `m0` when
no delta was ever accepted). -/
def msgsFinal (m0 : List Message) (es : List (List Char)) : List Message :=
  (notifAux m0 [] es).getLastD m0

/-- The closed set of failures `streamChat` can raise. -/
inductive ChatError where
  /-- Status 429: `"Rate limit exceeded. Please wait a moment and try again."`. -/
  | rateLimited : ChatError
  /-- Status 402: `"AI usage limit reached. Please add credits to continue."`. -/
  | quotaExceeded : ChatError
  /-- Other non-success status: `new Error(error.error || "Failed to get response")`
  (the fallback `"Request failed"` is substituted when the body fails to
  parse as JSON). -/
  | transport (msg : List Char) : ChatError
  /-- The `TypeError` thrown by `error.error` when the response body is
  the JSON literal `null` (line 49 uses no optional chaining). -/
  | nullAccess : ChatError
  /-- `if (!resp.body) throw new Error("No response body")` (line 52). -/
  | noBody : ChatError
  /-- An exception raised by `reader.read()` while the stream was being
  consumed (connection-level failure). -/
  | streamRead : ChatError
deriving DecidableEq

/-- The message of the pre-stream failure error for a non-429/402
status (line 41 and 49): the parsed body's truthy `error` member, else
a fallback string. -/
def preErrorMsg (body : List Char) : List Char :=
  match jsonParse body with
  | none => ("Request failed").toList
  | some j =>
    match jsField j ['e', 'r', 'r', 'o', 'r'] with
    | some v => if jsTruthy (some v) then jsString v else ("Failed to get response").toList
    | none => ("Failed to get response").toList

/-- Classification of a pre-stream failure response (lines 40–50;
reached only when `!resp.ok`): 429 and 402 take priority, any other
status throws the transport error — except a body parsing to JSON
`null`, where the unguarded `error.error` access itself throws. -/
def classifyPre (status : Nat) (body : List Char) : ChatError :=
  if status = 429 then .rateLimited
  else if status = 402 then .quotaExceeded
  else
    match jsonParse body with
    | some .null => .nullAccess
    | _ => .transport (preErrorMsg body)

/-- How the transport behaves for one turn, as observed by
`streamChat`: a non-success pre-stream response with a body, a
successful response with no body, a complete chunked stream, or a
stream whose `reader.read()` raises after delivering some chunks. -/
inductive Outcome where
  | preFailure (status : Nat) (body : List Char) : Outcome
  | noBody : Outcome
  | stream (chunks : List (List Char)) : Outcome
  | streamAbort (delivered : List (List Char)) : Outcome

/-- One `streamChat` call from conversation `m0`: either the final
conversation after all accepted deltas, or the raised error.  On
`streamAbort` the flush never runs (the exception propagates from
`reader.read()`). -/
def streamTurn (m0 : List Message) : Outcome → Except ChatError (List Message)
  | .preFailure status body => .error (classifyPre status body)
  | .noBody => .error .noBody
  | .stream chunks => .ok (msgsFinal m0 (runEmits chunks))
  | .streamAbort _ => .error .streamRead

/-- `sendMessage` (lines 129–153): append the trimmed user message,
run the turn, and on any error reset the conversation to
`newMessages` — the pre-turn history plus the user message.  Returns
the final conversation and the error shown to the user, if any. -/
def sendMessage (history : List Message) (input : List Char) (o : Outcome) :
    List Message × Option ChatError :=
  if jsTrim input = [] then (history, none)
  else
    let m0 := history ++ [⟨Role.user, jsTrim input⟩]
    match streamTurn m0 o with
    | .ok ms => (ms, none)
    | .error e => (m0, some e)

/-- Serialize a list of lines into the newline-terminated wire text. -/
def serializeLines (ls : List (List Char)) : List Char :=
  (ls.map (fun l => l ++ ['\n'])).flatten

/-! ### Basic lemmas about trimming and carriage-return stripping -/

theorem trimRight_append_ws (c : Char) (h : isTrimWs c = true) (l : List Char) :
    trimRight (l ++ [c]) = trimRight l := by
  unfold trimRight
  rw [List.reverse_append]
  simp [List.dropWhile_cons, h]

theorem jsTrim_append_ws (c : Char) (h : isTrimWs c = true) (l : List Char) :
    jsTrim (l ++ [c]) = jsTrim l := by
  unfold jsTrim trimLeft
  rw [List.dropWhile_append]
  by_cases he : (l.dropWhile isTrimWs).isEmpty
  · simp only [he, if_pos]
    rw [List.isEmpty_iff] at he
    simp [List.dropWhile_cons, h, he, trimRight]
  · simp only [he, if_neg, Bool.false_eq_true, not_false_iff]
    rw [trimRight_append_ws c h]

theorem jsTrim_eq_nil_iff (l : List Char) :
    jsTrim l = [] ↔ ∀ c ∈ l, isTrimWs c = true := by
  unfold jsTrim trimRight trimLeft
  rw [List.reverse_eq_nil_iff, List.dropWhile_eq_nil_iff]
  constructor
  · intro h c hc
    have hc' : c ∈ l.takeWhile isTrimWs ++ l.dropWhile isTrimWs := by
      rw [List.takeWhile_append_dropWhile]; exact hc
    rcases List.mem_append.mp hc' with h1 | h1
    · exact List.mem_takeWhile_imp h1
    · exact h c (List.mem_reverse.mpr h1)
  · intro h c hc
    exact h c (List.dropWhile_subset _ (List.mem_reverse.mp hc))

theorem interpretLine_append_cr (m : List Char) :
    interpretLine (m ++ ['\r']) = interpretLine m := by
  cases m with
  | nil => decide
  | cons a m' =>
    have htrim : jsTrim ((a :: m') ++ ['\r']) = jsTrim (a :: m') :=
      jsTrim_append_ws '\r' (by decide) (a :: m')
    by_cases hC1 : (a :: m').head? = some ':' ∨ jsTrim (a :: m') = []
    · have hC1' : ((a :: m') ++ ['\r']).head? = some ':' ∨ jsTrim ((a :: m') ++ ['\r']) = [] := by
        rw [htrim]; exact hC1
      rw [interpretLine, interpretLine, if_pos hC1', if_pos hC1]
    · have hC1' : ¬ (((a :: m') ++ ['\r']).head? = some ':' ∨ jsTrim ((a :: m') ++ ['\r']) = []) := by
        rw [htrim]; exact hC1
      rw [interpretLine, interpretLine, if_neg hC1', if_neg hC1]
      by_cases hd : (a :: m').take 6 = dataMark
      · have hlen : 6 ≤ (a :: m').length := by
          have h6 := congrArg List.length hd
          rw [List.length_take, show dataMark.length = 6 from rfl] at h6
          omega
        have hd' : ((a :: m') ++ ['\r']).take 6 = dataMark := by
          rw [List.take_append_of_le_length hlen]; exact hd
        rw [if_neg (not_not_intro hd'), if_neg (not_not_intro hd)]
        rw [List.drop_append_of_le_length hlen, jsTrim_append_ws '\r' (by decide)]
      · have hd2 : ((a :: m') ++ ['\r']).take 6 ≠ dataMark := by
          intro h
          by_cases hlen : 6 ≤ (a :: m').length
          · rw [List.take_append_of_le_length hlen] at h; exact hd h
          · push_neg at hlen
            rw [List.length_cons] at hlen
            have htake : ((a :: m') ++ ['\r']).take 6 = (a :: m') ++ ['\r'] :=
              List.take_of_length_le
                (by simp only [List.length_append, List.length_cons, List.length_nil]; omega)
            rw [htake] at h
            have hlast : ((a :: m') ++ ['\r']).getLast? = some '\r' :=
              List.getLast?_concat (a :: m')
            rw [h] at hlast
            simp [dataMark] at hlast
        rw [if_pos hd2, if_pos hd]

theorem interpretLine_stripCR (l : List Char) :
    interpretLine (stripCR l) = interpretLine l := by
  by_cases h : l.getLast? = some '\r'
  · have hne : l ≠ [] := by rintro rfl; simp at h
    have hlast : l.getLast hne = '\r' := by
      have := List.getLast?_eq_getLast l hne
      rw [this] at h
      exact Option.some_injective _ h
    have hdecomp : l.dropLast ++ ['\r'] = l := by
      rw [← hlast]; exact List.dropLast_append_getLast hne
    have hstrip : stripCR l = l.dropLast := by simp [stripCR, h]
    rw [hstrip]
    conv_rhs => rw [← hdecomp]
    rw [interpretLine_append_cr]
  · simp [stripCR, h]

theorem stripCR_no_nl {l : List Char} (h : '\n' ∉ l) : '\n' ∉ stripCR l := by
  unfold stripCR
  split
  · exact fun hm => h (List.dropLast_subset l hm)
  · exact h

/-! ### Lemmas about `splitNL` and `specEmits` -/

theorem splitNL_ne_nil (l : List Char) : splitNL l ≠ [] := by
  cases l with
  | nil => simp [splitNL]
  | cons c cs =>
    unfold splitNL
    split
    · simp
    · cases splitNL cs <;> simp

theorem splitNL_append_nl (X Y : List Char) (h : '\n' ∉ X) :
    splitNL (X ++ '\n' :: Y) = X :: splitNL Y := by
  induction X with
  | nil => simp [splitNL]
  | cons c X' ih =>
    have hc : c ≠ '\n' := fun hc => h (hc ▸ List.mem_cons_self c X')
    have h' : '\n' ∉ X' := fun hm => h (List.mem_cons_of_mem c hm)
    rw [List.cons_append, splitNL, if_neg hc, ih h']

theorem specEmits_append_nl (X Y : List Char) (h : '\n' ∉ X) :
    specEmits (X ++ '\n' :: Y) = (lineEmit X).toList ++ specEmits Y := by
  unfold specEmits
  rw [splitNL_append_nl X Y h, List.filterMap_cons]
  cases lineEmit X <;> simp

theorem lineEmit_of_ws {raw : List Char} (h : ∀ c ∈ raw, isTrimWs c = true) :
    lineEmit raw = none := by
  have hall : ∀ c ∈ stripCR raw, isTrimWs c = true := by
    intro c hc
    unfold stripCR at hc
    split at hc
    · exact h c (List.dropLast_subset raw hc)
    · exact h c hc
  have htrim : jsTrim (stripCR raw) = [] := (jsTrim_eq_nil_iff _).mpr hall
  unfold lineEmit interpretLine
  rw [if_pos (Or.inr htrim)]

theorem mem_splitNL_mem {l : List Char} {s : List Char} (hs : s ∈ splitNL l) :
    ∀ c ∈ s, c ∈ l := by
  induction l generalizing s with
  | nil =>
    simp [splitNL] at hs
    subst hs; simp
  | cons a as ih =>
    unfold splitNL at hs
    by_cases ha : a = '\n'
    · rw [if_pos ha] at hs
      rcases List.mem_cons.mp hs with h1 | h1
      · subst h1; simp
      · exact fun c hc => List.mem_cons_of_mem a (ih h1 c hc)
    · rw [if_neg ha] at hs
      rcases h0 : splitNL as with _ | ⟨s0, ss⟩
      · exact absurd h0 (splitNL_ne_nil as)
      · rw [h0] at hs
        rcases List.mem_cons.mp hs with h1 | h1
        · subst h1
          intro c hc
          rcases List.mem_cons.mp hc with h2 | h2
          · exact h2 ▸ List.mem_cons_self a as
          · exact List.mem_cons_of_mem a (ih (h0 ▸ List.mem_cons_self s0 ss) c h2)
        · exact fun c hc => List.mem_cons_of_mem a (ih (h0 ▸ List.mem_cons_of_mem s0 h1) c hc)

theorem specEmits_of_ws {l : List Char} (h : ∀ c ∈ l, isTrimWs c = true) :
    specEmits l = [] := by
  unfold specEmits
  rw [List.filterMap_eq_nil_iff]
  intro s hs
  exact lineEmit_of_ws (fun c hc => h c (mem_splitNL_mem hs c hc))

theorem flushEmits_eq_specEmits (buf : List Char) : flushEmits buf = specEmits buf := by
  unfold flushEmits
  split
  · rename_i htrim
    exact (specEmits_of_ws ((jsTrim_eq_nil_iff buf).mp htrim)).symm
  · rfl

/-! ### The read loop agrees with the reference line semantics -/

theorem lineEmit_eq_none_of_skip {l : List Char} (h : interpretLine (stripCR l) = .skip) :
    lineEmit l = none := by
  unfold lineEmit
  rw [h]

theorem lineEmit_eq_none_of_sentinel {l : List Char}
    (h : interpretLine (stripCR l) = .sentinel) : lineEmit l = none := by
  unfold lineEmit
  rw [h]

theorem lineEmit_eq_none_of_malformed {l : List Char}
    (h : interpretLine (stripCR l) = .malformed) : lineEmit l = none := by
  unfold lineEmit
  rw [h]

theorem lineEmit_eq_some_of_emit {l : List Char} {t : List Char}
    (h : interpretLine (stripCR l) = .emit t) : lineEmit l = some t := by
  unfold lineEmit
  rw [h]

/-- Processing one buffer with the inner line loop, then continuing with
any future text, accepts exactly the deltas that the reference
per-line semantics assigns to the combined text. -/
theorem scan_spec (s : List Char) : ∀ (pending future : List Char), '\n' ∉ pending →
    (scan pending s).2 ++ specEmits ((scan pending s).1 ++ future) =
      specEmits (pending ++ s ++ future) := by
  induction s with
  | nil =>
    intro pending future _
    simp [scan]
  | cons c cs ih =>
    intro pending future hp
    by_cases hc : c = '\n'
    · subst hc
      rw [scan, if_pos rfl]
      have hmid : pending ++ ('\n' :: cs) ++ future = pending ++ '\n' :: (cs ++ future) := by
        simp
      rcases hil : interpretLine (stripCR pending) with _ | _ | t | _
      · simp only [hil]
        rw [ih [] future (by simp)]
        rw [hmid, specEmits_append_nl pending (cs ++ future) hp,
          lineEmit_eq_none_of_skip hil]
        simp
      · simp only [hil]
        rw [hmid, specEmits_append_nl pending (cs ++ future) hp,
          lineEmit_eq_none_of_sentinel hil]
        simp
      · simp only [hil]
        have := ih [] future (by simp)
        simp only [List.nil_append] at this
        simp only [List.cons_append, this]
        rw [hmid, specEmits_append_nl pending (cs ++ future) hp,
          lineEmit_eq_some_of_emit hil]
        simp
      · simp only [hil]
        have hmid2 : (stripCR pending ++ '\n' :: cs) ++ future =
            stripCR pending ++ '\n' :: (cs ++ future) := by simp
        rw [hmid2, specEmits_append_nl (stripCR pending) (cs ++ future) (stripCR_no_nl hp),
          hmid, specEmits_append_nl pending (cs ++ future) hp,
          lineEmit_eq_none_of_malformed hil]
        have hstrip2 : lineEmit (stripCR pending) = none := by
          apply lineEmit_eq_none_of_malformed
          rw [interpretLine_stripCR]
          exact hil
        rw [hstrip2]
        simp
    · rw [scan, if_neg hc]
      have hp' : '\n' ∉ pending ++ [c] := by
        intro hm
        rcases List.mem_append.mp hm with h1 | h1
        · exact hp h1
        · exact hc (List.mem_singleton.mp h1).symm
      rw [ih (pending ++ [c]) future hp']
      have : pending ++ [c] ++ cs ++ future = pending ++ (c :: cs) ++ future := by simp
      rw [this]

/-- The main read loop followed by the final flush accepts exactly the
deltas of the reference semantics on the whole remaining text. -/
theorem runMain_spec (chunks : List (List Char)) : ∀ (buf : List Char),
    (runMain chunks buf).2 ++ flushEmits (runMain chunks buf).1 =
      specEmits (buf ++ chunks.flatten) := by
  induction chunks with
  | nil =>
    intro buf
    simp [runMain, flushEmits_eq_specEmits]
  | cons c cs ih =>
    intro buf
    rw [runMain]
    rw [List.append_assoc, ih (scan [] (buf ++ c)).1]
    have hscan := scan_spec (buf ++ c) [] (cs.flatten) (by simp)
    simp only [List.nil_append] at hscan
    rw [hscan, List.flatten_cons, List.append_assoc]

/-- Master theorem: the deltas accepted over any chunk sequence are
exactly those of the reference semantics on the concatenated text. -/
theorem runEmits_eq_specEmits (chunks : List (List Char)) :
    runEmits chunks = specEmits chunks.flatten := by
  unfold runEmits
  have := runMain_spec chunks []
  simpa using this

/-! ### Line-level corollaries -/

theorem lineEmit_nil : lineEmit ([] : List Char) = none := by decide

theorem serializeLines_cons (l : List Char) (L : List (List Char)) :
    serializeLines (l :: L) = l ++ '\n' :: serializeLines L := by
  unfold serializeLines
  simp

theorem specEmits_serializeLines (L : List (List Char)) (h : ∀ l ∈ L, '\n' ∉ l) :
    specEmits (serializeLines L) = L.filterMap lineEmit := by
  induction L with
  | nil =>
    show specEmits [] = []
    unfold specEmits splitNL
    rw [List.filterMap_cons, lineEmit_nil]
    rfl
  | cons l L' ih =>
    have h1 : '\n' ∉ l := h l (List.mem_cons_self l L')
    have h2 : ∀ x ∈ L', '\n' ∉ x := fun x hx => h x (List.mem_cons_of_mem l hx)
    rw [serializeLines_cons, specEmits_append_nl l _ h1, ih h2, List.filterMap_cons]
    cases lineEmit l <;> simp

/-! ### Characterization of the `setMessages` notification sequence -/

theorem lastIsAssistant_concat_assistant (base : List Message) (a : List Char) :
    lastIsAssistant (base ++ [⟨Role.assistant, a⟩]) = true := by
  unfold lastIsAssistant
  rw [List.getLast?_concat]
  rfl

theorem lastIsAssistant_concat_user (base : List Message) (u : List Char) :
    lastIsAssistant (base ++ [⟨Role.user, u⟩]) = false := by
  unfold lastIsAssistant
  rw [List.getLast?_concat]
  rfl

theorem updateMessages_assistant_last (base : List Message) (a c : List Char) :
    updateMessages (base ++ [⟨Role.assistant, a⟩]) c = base ++ [⟨Role.assistant, c⟩] := by
  unfold updateMessages
  rw [lastIsAssistant_concat_assistant]
  simp

theorem updateMessages_not_assistant (base : List Message) (c : List Char)
    (h : lastIsAssistant base = false) :
    updateMessages base c = base ++ [⟨Role.assistant, c⟩] := by
  unfold updateMessages
  rw [h]
  simp

theorem notifAux_assistant (es : List (List Char)) :
    ∀ (base : List Message) (a acc : List Char),
    notifAux (base ++ [⟨Role.assistant, a⟩]) acc es =
      (prefAccs acc es).map (fun v => base ++ [⟨Role.assistant, v⟩]) := by
  induction es with
  | nil => intros; rfl
  | cons t ts ih =>
    intro base a acc
    rw [notifAux, prefAccs]
    simp only [updateMessages_assistant_last, List.map_cons]
    rw [ih base (acc ++ t) (acc ++ t)]

theorem notifAux_from_non_assistant (es : List (List Char)) (base : List Message)
    (acc : List Char) (h : lastIsAssistant base = false) :
    notifAux base acc es =
      (prefAccs acc es).map (fun v => base ++ [⟨Role.assistant, v⟩]) := by
  cases es with
  | nil => rfl
  | cons t ts =>
    rw [notifAux, prefAccs]
    rw [updateMessages_not_assistant base _ h]
    simp only [List.map_cons]
    rw [notifAux_assistant ts base (acc ++ t) (acc ++ t)]

theorem prefAccs_chain (es : List (List Char)) : ∀ (acc : List Char) (k : Nat),
    k + 1 < (prefAccs acc es).length →
    ∃ t, (prefAccs acc es).getD (k + 1) [] = (prefAccs acc es).getD k [] ++ t := by
  induction es with
  | nil =>
    intro acc k h
    simp [prefAccs] at h
  | cons t ts ih =>
    intro acc k h
    cases k with
    | zero =>
      rw [prefAccs] at h ⊢
      cases ts with
      | nil => simp [prefAccs] at h
      | cons t' ts' =>
        refine ⟨t', ?_⟩
        rw [prefAccs]
        rfl
    | succ k' =>
      rw [prefAccs] at h ⊢
      simp only [List.getD_cons_succ]
      exact ih (acc ++ t) k' (by simpa using h)

/-! ### Comment/blank line insertion -/

/-- `CBIns L M` holds when `M` is `L` with extra comment lines (first
character `:`) or blank lines (whitespace-only after the carriage
return strip) inserted at arbitrary positions. -/
inductive CBIns : List (List Char) → List (List Char) → Prop where
  | nil : CBIns [] []
  | keep {L M : List (List Char)} (x : List Char) : CBIns L M → CBIns (x :: L) (x :: M)
  | ins {L M : List (List Char)} (c : List Char)
      (hnl : '\n' ∉ c)
      (hskip : (stripCR c).head? = some ':' ∨ jsTrim (stripCR c) = []) :
      CBIns L M → CBIns L (c :: M)

theorem CBIns_lineEmit_none {c : List Char}
    (hskip : (stripCR c).head? = some ':' ∨ jsTrim (stripCR c) = []) :
    lineEmit c = none := by
  unfold lineEmit interpretLine
  rw [if_pos hskip]

theorem CBIns_filterMap {L M : List (List Char)} (h : CBIns L M) :
    M.filterMap lineEmit = L.filterMap lineEmit := by
  induction h with
  | nil => rfl
  | keep x _ ih => rw [List.filterMap_cons, List.filterMap_cons, ih]
  | ins c _ hskip _ ih => rw [List.filterMap_cons, CBIns_lineEmit_none hskip, ih]

theorem CBIns_no_nl {L M : List (List Char)} (h : CBIns L M)
    (hL : ∀ l ∈ L, '\n' ∉ l) : ∀ l ∈ M, '\n' ∉ l := by
  induction h with
  | nil => exact hL
  | keep x hr ih =>
    intro l hl
    rcases List.mem_cons.mp hl with h1 | h1
    · exact h1 ▸ hL x (List.mem_cons_self x _)
    · exact ih (fun y hy => hL y (List.mem_cons_of_mem x hy)) l h1
  | ins c hnl _ hr ih =>
    intro l hl
    rcases List.mem_cons.mp hl with h1 | h1
    · exact h1 ▸ hnl
    · exact ih hL l h1

/-! ### Claims -/

/-- C2: Chunk-boundary invariance — splitting the response text into
chunks at arbitrary offsets (including inside a JSON object, inside a
line terminator, or one character at a time) produces the same final
accumulated assistant content as processing the whole text as a single
chunk.  Proved for every chunk sequence, valid or not, so in
particular for every splitting of a complete valid response. -/
theorem C2_chunk_boundary_invariance (chunks : List (List Char)) :
    assistantContent chunks = assistantContent [chunks.flatten] := by
  unfold assistantContent
  rw [runEmits_eq_specEmits, runEmits_eq_specEmits]
  simp

/-- C7: End-of-stream finalization — a stream that simply ends
completes the turn normally (`Except.ok`, never an error), and the
final content is obtained by interpreting every line of the whole
input, where `splitNL` includes the residual text after the last
newline as one final line (the single final flush).  This holds for
every chunk sequence, in particular those with no `[DONE]` sentinel. -/
theorem C7_end_of_stream_finalization (m0 : List Message) (chunks : List (List Char)) :
    streamTurn m0 (Outcome.stream chunks) = Except.ok (msgsFinal m0 (runEmits chunks)) ∧
    assistantContent chunks = ((splitNL chunks.flatten).filterMap lineEmit).flatten := by
  refine ⟨rfl, ?_⟩
  unfold assistantContent
  rw [runEmits_eq_specEmits]
  rfl

/-- C9: Concrete scenario A — the three chunks
`"data: {"choices":[{"delta":{"content":"Hel"`, `"lo"}}]}\n\n"` and
`"data: [DONE]\n\n"` (the JSON object split across the first chunk
boundary) yield exactly the assistant content `"Hello"`. -/
theorem C9_concrete_scenario_A :
    assistantContent
      [("data: \x7b\"choices\":[\x7b\"delta\":\x7b\"content\":\"Hel").toList,
       ("lo\"\x7d\x7d]\x7d\n\n").toList,
       ("data: [DONE]\n\n").toList] = ("Hello").toList := by
  decide

/-- C1 (code divergence): after a `data: [DONE]` line is decoded, the
read loop only breaks out of the inner line loop (AIChat.tsx line 75),
so a later chunk carrying a well-formed delta frame is still consumed
and changes the final content — here from `""` to `"X"`. -/
theorem C1_sentinel_does_not_stop_reading :
    assistantContent
      [("data: [DONE]\n").toList,
       ("data: \x7b\"choices\":[\x7b\"delta\":\x7b\"content\":\"X\"\x7d\x7d]\x7d\n").toList] =
      ("X").toList := by
  decide

/-- C3: Malformed-frame tolerance — a single data-frame line whose
payload fails to parse, surrounded by frames that are not malformed, is
dropped: the turn raises no error and the final content is exactly the
deltas of the surrounding frames, in order.  (The read loop stalls on
the re-queued line, but the final flush drops it and interprets
everything after it.) -/
theorem C3_malformed_frame_tolerance
    (pre post : List (List Char)) (bad : List Char) (chunks : List (List Char))
    (hlines : ∀ l ∈ pre ++ post, '\n' ∉ l ∧ interpretLine (stripCR l) ≠ LineAct.malformed)
    (hbadnl : '\n' ∉ bad)
    (hbaddata : (stripCR bad).take 6 = dataMark)
    (hbadmal : interpretLine (stripCR bad) = LineAct.malformed)
    (hjoin : chunks.flatten = serializeLines (pre ++ bad :: post)) :
    (∀ m0 : List Message, ∃ ms, streamTurn m0 (Outcome.stream chunks) = Except.ok ms) ∧
    assistantContent chunks =
      (pre.filterMap lineEmit).flatten ++ (post.filterMap lineEmit).flatten := by
  constructor
  · intro m0
    exact ⟨_, rfl⟩
  · unfold assistantContent
    rw [runEmits_eq_specEmits, hjoin]
    have hnl : ∀ l ∈ pre ++ bad :: post, '\n' ∉ l := by
      intro l hl
      rcases List.mem_append.mp hl with h1 | h1
      · exact (hlines l (List.mem_append.mpr (Or.inl h1))).1
      · rcases List.mem_cons.mp h1 with h2 | h2
        · exact h2 ▸ hbadnl
        · exact (hlines l (List.mem_append.mpr (Or.inr h2))).1
    rw [specEmits_serializeLines _ hnl, List.filterMap_append, List.filterMap_cons,
      lineEmit_eq_none_of_malformed hbadmal, List.flatten_append]

theorem C3_witness :
    interpretLine (stripCR (("data: \x7bnope").toList)) = LineAct.malformed ∧
    assistantContent
        [serializeLines
          [("data: \x7b\"choices\":[\x7b\"delta\":\x7b\"content\":\"A\"\x7d\x7d]\x7d").toList,
           ("data: \x7bnope").toList,
           ("data: \x7b\"choices\":[\x7b\"delta\":\x7b\"content\":\"B\"\x7d\x7d]\x7d").toList,
           ("data: [DONE]").toList]] =
      (([("data: \x7b\"choices\":[\x7b\"delta\":\x7b\"content\":\"A\"\x7d\x7d]\x7d").toList].filterMap
          lineEmit).flatten ++
        ([("data: \x7b\"choices\":[\x7b\"delta\":\x7b\"content\":\"B\"\x7d\x7d]\x7d").toList,
          ("data: [DONE]").toList].filterMap lineEmit).flatten) :=
  ⟨by decide,
   (C3_malformed_frame_tolerance
      [("data: \x7b\"choices\":[\x7b\"delta\":\x7b\"content\":\"A\"\x7d\x7d]\x7d").toList]
      [("data: \x7b\"choices\":[\x7b\"delta\":\x7b\"content\":\"B\"\x7d\x7d]\x7d").toList,
       ("data: [DONE]").toList]
      (("data: \x7bnope").toList) _
      (by decide) (by decide) (by decide) (by decide) (by decide)).2⟩

/-- C6: Comment/blank transparency — inserting comment lines (first
character `:`) or blank lines anywhere between the lines of a response
does not change the final accumulated assistant content, for any
chunkings of the two serialized inputs. -/
theorem C6_comment_blank_transparency
    (L M : List (List Char)) (hLM : CBIns L M) (hL : ∀ l ∈ L, '\n' ∉ l)
    (cm cl : List (List Char))
    (hcm : cm.flatten = serializeLines M) (hcl : cl.flatten = serializeLines L) :
    assistantContent cm = assistantContent cl := by
  unfold assistantContent
  rw [runEmits_eq_specEmits, runEmits_eq_specEmits, hcm, hcl,
    specEmits_serializeLines M (CBIns_no_nl hLM hL), specEmits_serializeLines L hL,
    CBIns_filterMap hLM]

theorem C6_witness :
    assistantContent
        [serializeLines
          [(": keep-alive").toList,
           ("data: \x7b\"choices\":[\x7b\"delta\":\x7b\"content\":\"Hi\"\x7d\x7d]\x7d").toList,
           ([] : List Char),
           ("   ").toList,
           ("data: [DONE]").toList]] =
      assistantContent
        [serializeLines
          [("data: \x7b\"choices\":[\x7b\"delta\":\x7b\"content\":\"Hi\"\x7d\x7d]\x7d").toList,
           ("data: [DONE]").toList]] :=
  C6_comment_blank_transparency
    [("data: \x7b\"choices\":[\x7b\"delta\":\x7b\"content\":\"Hi\"\x7d\x7d]\x7d").toList,
     ("data: [DONE]").toList]
    [(": keep-alive").toList,
     ("data: \x7b\"choices\":[\x7b\"delta\":\x7b\"content\":\"Hi\"\x7d\x7d]\x7d").toList,
     ([] : List Char),
     ("   ").toList,
     ("data: [DONE]").toList]
    (CBIns.ins _ (by decide) (by decide)
      (CBIns.keep _ (CBIns.ins _ (by decide) (by decide)
        (CBIns.ins _ (by decide) (by decide)
          (CBIns.keep _ CBIns.nil)))))
    (by decide) _ _ (by decide) (by decide)

/-- C8: Turn accumulation invariant — starting from a conversation
ending in the user message of the turn, every `setMessages`
notification shows the same conversation plus exactly one trailing
assistant message, whose content is the accumulated prefix of the
accepted deltas; successive contents extend one another (each has the
previous as a prefix, witnessed by the appended suffix). -/
theorem C8_turn_accumulation
    (h : List Message) (u : List Char) (chunks : List (List Char)) :
    streamNotifs (h ++ [⟨Role.user, u⟩]) chunks =
      (prefAccs [] (runEmits chunks)).map
        (fun v => (h ++ [⟨Role.user, u⟩]) ++ [⟨Role.assistant, v⟩]) ∧
    ∀ k, k + 1 < (prefAccs [] (runEmits chunks)).length →
      ∃ t, (prefAccs [] (runEmits chunks)).getD (k + 1) [] =
        (prefAccs [] (runEmits chunks)).getD k [] ++ t := by
  refine ⟨?_, fun k hk => prefAccs_chain (runEmits chunks) [] k hk⟩
  unfold streamNotifs
  exact notifAux_from_non_assistant _ _ _ (lastIsAssistant_concat_user h u)

theorem C8_witness :
    0 + 1 <
      (prefAccs []
        (runEmits
          [("data: \x7b\"choices\":[\x7b\"delta\":\x7b\"content\":\"A\"\x7d\x7d]\x7d\ndata: \x7b\"choices\":[\x7b\"delta\":\x7b\"content\":\"B\"\x7d\x7d]\x7d\n").toList])).length ∧
    ∃ t,
      (prefAccs []
        (runEmits
          [("data: \x7b\"choices\":[\x7b\"delta\":\x7b\"content\":\"A\"\x7d\x7d]\x7d\ndata: \x7b\"choices\":[\x7b\"delta\":\x7b\"content\":\"B\"\x7d\x7d]\x7d\n").toList])).getD
          (0 + 1) [] =
        (prefAccs []
          (runEmits
            [("data: \x7b\"choices\":[\x7b\"delta\":\x7b\"content\":\"A\"\x7d\x7d]\x7d\ndata: \x7b\"choices\":[\x7b\"delta\":\x7b\"content\":\"B\"\x7d\x7d]\x7d\n").toList])).getD
          0 [] ++ t :=
  ⟨by decide,
   (C8_turn_accumulation [] (("q").toList)
      [("data: \x7b\"choices\":[\x7b\"delta\":\x7b\"content\":\"A\"\x7d\x7d]\x7d\ndata: \x7b\"choices\":[\x7b\"delta\":\x7b\"content\":\"B\"\x7d\x7d]\x7d\n").toList]).2
    0 (by decide)⟩

/-- C4: Error rollback atomicity — when `reader.read()` raises after
`delivered` chunks were consumed and at least one delta was accepted
(so the turn had issued at least one notification containing a partial
assistant message), `sendMessage`'s catch resets the conversation to
exactly the prior history plus the trimmed user message, with no
assistant message remaining, and surfaces the error. -/
theorem C4_error_rollback
    (history : List Message) (input : List Char) (delivered : List (List Char))
    (hinput : jsTrim input ≠ [])
    (hdelta : (runMain delivered []).2 ≠ []) :
    notifAux (history ++ [⟨Role.user, jsTrim input⟩]) [] (runMain delivered []).2 ≠ [] ∧
    sendMessage history input (Outcome.streamAbort delivered) =
      (history ++ [⟨Role.user, jsTrim input⟩], some ChatError.streamRead) := by
  constructor
  · have hgen : ∀ (m0 : List Message) (es : List (List Char)), es ≠ [] →
        notifAux m0 [] es ≠ [] := by
      intro m0 es hes
      cases es with
      | nil => exact absurd rfl hes
      | cons t ts => simp [notifAux]
    exact hgen _ _ hdelta
  · unfold sendMessage
    rw [if_neg hinput]
    rfl

theorem C4_witness :
    (runMain [("data: \x7b\"choices\":[\x7b\"delta\":\x7b\"content\":\"A\"\x7d\x7d]\x7d\n").toList]
        []).2 ≠ [] ∧
    sendMessage [] (("hi").toList)
        (Outcome.streamAbort
          [("data: \x7b\"choices\":[\x7b\"delta\":\x7b\"content\":\"A\"\x7d\x7d]\x7d\n").toList]) =
      ([⟨Role.user, ("hi").toList⟩], some ChatError.streamRead) :=
  ⟨by decide,
   (C4_error_rollback [] (("hi").toList)
      [("data: \x7b\"choices\":[\x7b\"delta\":\x7b\"content\":\"A\"\x7d\x7d]\x7d\n").toList]
      (by decide) (by decide)).2⟩

/-- C5 counterexample: for a pre-stream failure with status 500 and
body `null` (valid JSON carrying no error message), the claim predicts
a transport error with a generic fallback string; the code instead
trips over `error.error` on the `null` value (line 49 has no optional
chaining) and raises that `TypeError`.  No assistant message is
appended either way. -/
theorem C5_null_body_counterexample :
    sendMessage [] (("hi").toList) (Outcome.preFailure 500 (("null").toList)) =
      ([⟨Role.user, ("hi").toList⟩], some ChatError.nullAccess) ∧
    ChatError.nullAccess ≠ ChatError.transport (("Failed to get response").toList) ∧
    ChatError.nullAccess ≠ ChatError.transport (("Request failed").toList) := by
  refine ⟨by decide, by decide, by decide⟩

/-- C5 (amended): pre-stream failures are classified by status in
priority order — 429 raises the rate-limited error, then 402 the
quota-exceeded error, and any other non-success status raises a
transport error carrying the body's truthy `error` member if present,
else a generic fallback — except that a body parsing to JSON `null`
makes the unguarded `error.error` access itself throw.  In every case
the conversation holds only the prior history plus the user message:
no assistant message is appended. -/
theorem C5_amended_pre_stream_classification
    (history : List Message) (input : List Char) (status : Nat) (body : List Char)
    (hinput : jsTrim input ≠ [])
    (hfail : ¬ (200 ≤ status ∧ status ≤ 299)) :
    (status = 429 →
      sendMessage history input (Outcome.preFailure status body) =
        (history ++ [⟨Role.user, jsTrim input⟩], some ChatError.rateLimited)) ∧
    (status ≠ 429 → status = 402 →
      sendMessage history input (Outcome.preFailure status body) =
        (history ++ [⟨Role.user, jsTrim input⟩], some ChatError.quotaExceeded)) ∧
    (status ≠ 429 → status ≠ 402 → jsonParse body = some Json.null →
      sendMessage history input (Outcome.preFailure status body) =
        (history ++ [⟨Role.user, jsTrim input⟩], some ChatError.nullAccess)) ∧
    (status ≠ 429 → status ≠ 402 → jsonParse body ≠ some Json.null →
      sendMessage history input (Outcome.preFailure status body) =
        (history ++ [⟨Role.user, jsTrim input⟩],
          some (ChatError.transport (preErrorMsg body)))) := by
  have hsend : ∀ e, classifyPre status body = e →
      sendMessage history input (Outcome.preFailure status body) =
        (history ++ [⟨Role.user, jsTrim input⟩], some e) := by
    intro e he
    unfold sendMessage
    rw [if_neg hinput]
    simp [streamTurn, he]
  refine ⟨?_, ?_, ?_, ?_⟩
  · intro h429
    exact hsend _ (by unfold classifyPre; rw [if_pos h429])
  · intro h429 h402
    exact hsend _ (by unfold classifyPre; rw [if_neg h429, if_pos h402])
  · intro h429 h402 hnull
    exact hsend _ (by unfold classifyPre; rw [if_neg h429, if_neg h402, hnull])
  · intro h429 h402 hnotnull
    refine hsend _ ?_
    unfold classifyPre
    rw [if_neg h429, if_neg h402]
    rcases hb : jsonParse body with _ | j
    · rfl
    · cases j with
      | null => exact absurd hb hnotnull
      | bool b => rfl
      | num raw => rfl
      | str s => rfl
      | arr xs => rfl
      | obj ms => rfl

theorem C5_witness :
    jsTrim (("hi").toList) ≠ [] ∧
    sendMessage [] (("hi").toList)
        (Outcome.preFailure 429 (("\x7b\"error\":\"slow down\"\x7d").toList)) =
      ([⟨Role.user, ("hi").toList⟩], some ChatError.rateLimited) :=
  ⟨by decide,
   (C5_amended_pre_stream_classification [] (("hi").toList) 429
      (("\x7b\"error\":\"slow down\"\x7d").toList) (by decide) (by decide)).1 rfl⟩

/-- C10: Falsy-content frames — a data-frame whose payload parses as
valid JSON but whose extracted `content` is falsy (absent, `null`,
empty string, `false` or numeric zero) is interpreted as a skip: it
contributes no delta, and inserting it anywhere in a response changes
neither the notification sequence (no `setMessages` call, hence no
assistant message appended for it) nor the final content. -/
theorem C10_falsy_content_no_delta
    (payload : List Char) (j : Json) (c : Option Json)
    (hnl : '\n' ∉ payload)
    (hparse : jsonParse (jsTrim payload) = some j)
    (hcontent : contentOf j = Except.ok c)
    (hfalsy : jsTruthy c = false) :
    lineEmit (dataMark ++ payload) = none ∧
    ∀ (m0 : List Message) (pre post : List (List Char)),
      (∀ l ∈ pre ++ post, '\n' ∉ l) →
      streamNotifs m0 [serializeLines (pre ++ (dataMark ++ payload) :: post)] =
        streamNotifs m0 [serializeLines (pre ++ post)] ∧
      assistantContent [serializeLines (pre ++ (dataMark ++ payload) :: post)] =
        assistantContent [serializeLines (pre ++ post)] := by
  have hskip : interpretLine (dataMark ++ payload) = LineAct.skip := by
    unfold interpretLine
    have hcond : ¬ ((dataMark ++ payload).head? = some ':' ∨
        jsTrim (dataMark ++ payload) = []) := by
      rintro (h1 | h2)
      · simp [dataMark] at h1
      · have hd := (jsTrim_eq_nil_iff _).mp h2 'd' (by simp [dataMark])
        exact absurd hd (by decide)
    rw [if_neg hcond]
    have htake : (dataMark ++ payload).take 6 = dataMark := by
      rw [show (6 : Nat) = dataMark.length from rfl, List.take_left]
    have hdrop : (dataMark ++ payload).drop 6 = payload := by
      rw [show (6 : Nat) = dataMark.length from rfl, List.drop_left]
    rw [if_neg (not_not_intro htake), hdrop]
    have hdone : jsTrim payload ≠ doneLit := by
      intro he
      rw [he, show jsonParse doneLit = none from rfl] at hparse
      exact Option.noConfusion hparse
    rw [if_neg hdone, hparse]
    simp [hcontent, hfalsy]
  have hline : lineEmit (dataMark ++ payload) = none := by
    apply lineEmit_eq_none_of_skip
    rw [interpretLine_stripCR]
    exact hskip
  refine ⟨hline, ?_⟩
  intro m0 pre post hprepost
  have hall : ∀ l ∈ pre ++ (dataMark ++ payload) :: post, '\n' ∉ l := by
    intro l hl
    rcases List.mem_append.mp hl with h1 | h1
    · exact hprepost l (List.mem_append.mpr (Or.inl h1))
    · rcases List.mem_cons.mp h1 with h2 | h2
      · subst h2
        intro hm
        rcases List.mem_append.mp hm with h3 | h3
        · simp [dataMark] at h3
        · exact hnl h3
      · exact hprepost l (List.mem_append.mpr (Or.inr h2))
  have hruns : runEmits [serializeLines (pre ++ (dataMark ++ payload) :: post)] =
      runEmits [serializeLines (pre ++ post)] := by
    rw [runEmits_eq_specEmits, runEmits_eq_specEmits]
    have h1 : ([serializeLines (pre ++ (dataMark ++ payload) :: post)] :
        List (List Char)).flatten = serializeLines (pre ++ (dataMark ++ payload) :: post) := by
      simp
    have h2 : ([serializeLines (pre ++ post)] : List (List Char)).flatten =
        serializeLines (pre ++ post) := by
      simp
    rw [h1, h2, specEmits_serializeLines _ hall, specEmits_serializeLines _ hprepost,
      List.filterMap_append, List.filterMap_append, List.filterMap_cons, hline]
  exact ⟨by unfold streamNotifs; rw [hruns], by unfold assistantContent; rw [hruns]⟩

theorem C10_witness :
    lineEmit
        (dataMark ++ ("\x7b\"choices\":[\x7b\"delta\":\x7b\"content\":\"\"\x7d\x7d]\x7d").toList) =
      none ∧
    assistantContent
        [serializeLines
          [("data: \x7b\"choices\":[\x7b\"delta\":\x7b\"content\":\"A\"\x7d\x7d]\x7d").toList,
           dataMark ++ ("\x7b\"choices\":[\x7b\"delta\":\x7b\"content\":\"\"\x7d\x7d]\x7d").toList,
           ("data: [DONE]").toList]] =
      assistantContent
        [serializeLines
          [("data: \x7b\"choices\":[\x7b\"delta\":\x7b\"content\":\"A\"\x7d\x7d]\x7d").toList,
           ("data: [DONE]").toList]] :=
  ⟨(C10_falsy_content_no_delta
      (("\x7b\"choices\":[\x7b\"delta\":\x7b\"content\":\"\"\x7d\x7d]\x7d").toList)
      (Json.obj [(("choices").toList,
        Json.arr [Json.obj [(("delta").toList,
          Json.obj [(("content").toList, Json.str [])])]])])
      (some (Json.str [])) (by decide) rfl rfl rfl).1,
   ((C10_falsy_content_no_delta
      (("\x7b\"choices\":[\x7b\"delta\":\x7b\"content\":\"\"\x7d\x7d]\x7d").toList)
      (Json.obj [(("choices").toList,
        Json.arr [Json.obj [(("delta").toList,
          Json.obj [(("content").toList, Json.str [])])]])])
      (some (Json.str [])) (by decide) rfl rfl rfl).2
     [] [("data: \x7b\"choices\":[\x7b\"delta\":\x7b\"content\":\"A\"\x7d\x7d]\x7d").toList]
     [("data: [DONE]").toList] (by decide)).2⟩

end AIChat
